import Mathlib

/-!
Shallow embedding of the icp-fl-poc federated-learning canister
(src/src/lib.rs) in Lean 4.

Modelling conventions:
- `Principal` (an opaque caller identity) is modelled as `Nat`.
- Byte strings (`Vec<u8>`) are modelled as `List Nat`.
- `f32` / `f64` values are modelled as exact rationals `Rat`.  Every
  floating-point computation the claims evaluate (sums of small integers,
  division by the client count, division by the fixed-point scale) is exact
  at the claimed inputs, so the rational model agrees with IEEE semantics
  there.
- `i64` / `i128` are modelled as `Int` with explicit two-complement
  wrapping (`wrap64`, `wrap128`) where the source performs machine
  arithmetic (release-mode Rust wraps on overflow).
- `HashMap` is modelled as an association list; its unspecified iteration
  order becomes the list order, over which properties quantify.
- A Rust panic or a failed `expect` inside an IC update call traps and
  rolls back all state changes of that call; fallible operations therefore
  return `Except CallError _`, where an `.error` result carries no state
  (the pre-call state persists unchanged).
- The external vetkd key-derivation call, AES-256-GCM decryption and
  serde_json decoding of the plaintext are uninterpreted functions packed
  in an `Env`; serialization of the global model is modelled as the
  identity on the decoded float list (it is injective and round-trips).
-/

set_option maxRecDepth 10000

/-- Opaque caller identity (candid `Principal`). -/
abbrev Principal := Nat

/-- Dense client identifier, `type ClientId = u64` in the source. -/
abbrev ClientId := Nat

/-- Byte string, `Vec<u8>` in the source. -/
abbrev Bytes := List Nat

/-- Aggregation mode flag, `enum AggregationMode { Plain, SMPC }`. -/
inductive AggregationMode
  | Plain
  | SMPC
deriving DecidableEq

/-- Fixed-point scaling factor, `const SMPC_SCALE: i64 = 1_000_000`. -/
def SMPC_SCALE : Int := 1000000

/-- Two-complement wrap of an integer into the `i64` range. -/
def wrap64 (z : Int) : Int := (z + 2 ^ 63) % 2 ^ 64 - 2 ^ 63

/-- Two-complement wrap of an integer into the `i128` range. -/
def wrap128 (z : Int) : Int := (z + 2 ^ 127) % 2 ^ 128 - 2 ^ 127

/-- Association-list insert mirroring `HashMap::insert` (replace the
existing binding in place, else append). -/
def alistInsert {β : Type} (k : Nat) (v : β) : List (Nat × β) → List (Nat × β)
  | [] => [(k, v)]
  | (k₂, v₂) :: rest =>
      if k₂ = k then (k, v) :: rest else (k₂, v₂) :: alistInsert k v rest

/-- Association-list removal mirroring `HashMap::remove`. -/
def removeKey {β : Type} (k : Nat) (m : List (Nat × β)) : List (Nat × β) :=
  m.filter (fun e => e.1 ≠ k)

/-- Canister state, `struct State` in the source.  The serialized
`global_model` byte blob is modelled by the float vector it encodes. -/
structure State where
  global_model : List Rat
  model_updates : List (Nat × List (ClientId × Bytes))
  clients : List Principal
  next_client_id : ClientId
  current_cycle : Nat
  aggregation_mode : AggregationMode
  smpc_s_shares : List (Nat × List (ClientId × List Int))
  smpc_t_sums : List (Nat × List (ClientId × List Int))
  cycle_participants : List (Nat × List ClientId)
deriving DecidableEq

/-- Initial state, `State::default()` in the source. -/
def State.default : State :=
  ⟨[], [], [], 0, 0, AggregationMode.Plain, [], [], []⟩

/-- Error taxonomy for calls that trap (panic / failed expect). -/
inductive CallError
  | duplicateRegistration
  | notRegistered
  | unknownClientId
  | keyServiceUnavailable
  | deserializationFailed
deriving DecidableEq

/-- Uninterpreted external collaborators of `run_aggregation`: the vetkd
key-derivation call (plus AES key construction, `none` = trap), AES-GCM
decryption (key, nonce, ciphertext; `none` = authentication failure) and
serde_json decoding of the plaintext as a float vector. -/
structure Env where
  deriveKey : Principal → Option Bytes
  decrypt : Bytes → Bytes → Bytes → Option Bytes
  parse : Bytes → Option (List Rat)

/-- Registration, `fn register_client`.  A duplicate registration panics
(`Client already registered.`), modelled as an error result (trap, no
state change). -/
def register_client (caller : Principal) (s : State) :
    Except CallError (ClientId × State) :=
  if caller ∈ s.clients then .error .duplicateRegistration
  else
    .ok (s.next_client_id,
      { s with
        clients := s.clients ++ [caller]
        next_client_id := s.next_client_id + 1 })

/-- Upload of a plain (encrypted) model update, `fn upload_model_update`. -/
def upload_model_update (caller : Principal) (upd : Bytes) (s : State) :
    Except CallError State :=
  match s.clients.findIdx? (fun p => p = caller) with
  | none => .error .notRegistered
  | some client_id =>
      .ok { s with
        model_updates :=
          alistInsert s.current_cycle
            (alistInsert client_id upd
              ((s.model_updates.lookup s.current_cycle).getD []))
            s.model_updates }

/-- Read of the global model, `fn get_global_model`. -/
def get_global_model (s : State) : List Rat := s.global_model

/-- Cycle advance, `fn start_new_cycle`. -/
def start_new_cycle (s : State) : Nat × State :=
  let c := s.current_cycle + 1
  (c, { s with
        current_cycle := c
        cycle_participants :=
          alistInsert c (List.range s.clients.length) s.cycle_participants })

/-- Mode write, `fn set_aggregation_mode` (any string other than SMPC,
case-insensitively, coerces to Plain). -/
def set_aggregation_mode (mode : String) (s : State) : State :=
  { s with aggregation_mode :=
      if mode.toUpper = "SMPC" then AggregationMode.SMPC
      else AggregationMode.Plain }

/-- Participant query, `fn get_cycle_participants`, with the all-current-
clients fallback. -/
def get_cycle_participants (cycle : Nat) (s : State) : List ClientId :=
  (s.cycle_participants.lookup cycle).getD (List.range s.clients.length)

/-- Upload of an SMPC masked share, `fn upload_masked_update_s`. -/
def upload_masked_update_s (caller : Principal) (share : List Int)
    (s : State) : Except CallError State :=
  match s.clients.findIdx? (fun p => p = caller) with
  | none => .error .notRegistered
  | some client_id =>
      .ok { s with
        smpc_s_shares :=
          alistInsert s.current_cycle
            (alistInsert client_id share
              ((s.smpc_s_shares.lookup s.current_cycle).getD []))
            s.smpc_s_shares }

/-- Upload of an SMPC mask sum, `fn upload_mask_sum_t`. -/
def upload_mask_sum_t (caller : Principal) (sum : List Int)
    (s : State) : Except CallError State :=
  match s.clients.findIdx? (fun p => p = caller) with
  | none => .error .notRegistered
  | some client_id =>
      .ok { s with
        smpc_t_sums :=
          alistInsert s.current_cycle
            (alistInsert client_id sum
              ((s.smpc_t_sums.lookup s.current_cycle).getD []))
            s.smpc_t_sums }

/-- Loop body of `run_aggregation` (lines 102-138 of the source): walks
the cycle update entries, carrying the running float sum and the
per-call success counter.  Per the source, for each entry it first
resolves the client principal (a missing principal traps), then derives
the per-client key (a failed call or key construction traps), then skips
the entry if shorter than 12 bytes, splits nonce and ciphertext, skips
the entry on decryption failure, traps on deserialization failure, and
otherwise fixes the expected length from the first decoded vector and
accumulates matching-length vectors. -/
def processUpdates (env : Env) (clients : List Principal) :
    List (ClientId × Bytes) → List Rat → Nat →
    Except CallError (List Rat × Nat)
  | [], acc, cnt => .ok (acc, cnt)
  | (client_id, encrypted_update) :: rest, acc, cnt =>
    match clients.get? client_id with
    | none => .error .unknownClientId
    | some client_principal =>
      match env.deriveKey client_principal with
      | none => .error .keyServiceUnavailable
      | some key =>
        if encrypted_update.length < 12 then
          processUpdates env clients rest acc cnt
        else
          match env.decrypt key (encrypted_update.take 12)
              (encrypted_update.drop 12) with
          | none => processUpdates env clients rest acc cnt
          | some decrypted_data =>
            match env.parse decrypted_data with
            | none => .error .deserializationFailed
            | some upd =>
              let acc₂ :=
                if acc.isEmpty then List.replicate upd.length (0 : Rat)
                else acc
              if acc₂.length = upd.length then
                processUpdates env clients rest
                  (List.zipWith (· + ·) acc₂ upd) (cnt + 1)
              else
                processUpdates env clients rest acc₂ cnt

/-- Current-cycle view of the plain update map,
`state.model_updates.get(&state.current_cycle).cloned().unwrap_or_default()`. -/
def cycleUpdates (s : State) : List (ClientId × Bytes) :=
  (s.model_updates.lookup s.current_cycle).getD []

/-- Current-cycle view of the MaskedShare map. -/
def cycleS (s : State) : List (ClientId × List Int) :=
  (s.smpc_s_shares.lookup s.current_cycle).getD []

/-- Current-cycle view of the MaskSum map. -/
def cycleT (s : State) : List (ClientId × List Int) :=
  (s.smpc_t_sums.lookup s.current_cycle).getD []

/-- Plain aggregation, `async fn run_aggregation`.  An `.error` result
models a trap: the call aborts and the pre-call state persists. -/
def run_aggregation (env : Env) (s : State) : Except CallError State :=
  let cycle_updates := cycleUpdates s
  if cycle_updates.isEmpty then .ok s
  else
    match processUpdates env s.clients cycle_updates [] 0 with
    | .error e => .error e
    | .ok (aggregated_model, decrypted_updates_count) =>
      if 0 < decrypted_updates_count then
        .ok { s with
          global_model :=
            aggregated_model.map
              (fun v => v / (decrypted_updates_count : Rat))
          model_updates := removeKey s.current_cycle s.model_updates }
      else .ok s

/-- Vector length chosen by `run_smpc_aggregation`: the length of the
first vector of `s_map.values().chain(t_map.values())`. -/
def smpcVecLen (svals tvals : List (List Int)) : Option Nat :=
  ((svals ++ tvals).head?).map List.length

/-- Element-wise `i64` accumulation of one vector into the running sum
(`sum[i] += val` in the source loop). -/
def addVec64 (acc v : List Int) : List Int :=
  List.zipWith (fun a b => wrap64 (a + b)) acc v

/-- Sum of all vectors of the chosen length (others silently skipped),
as accumulated by the source loops over `s_map` and `t_map`. -/
def smpcSum (n : Nat) (vals : List (List Int)) : List Int :=
  (vals.filter (fun v => v.length = n)).foldl addVec64
    (List.replicate n (0 : Int))

/-- Count `num_s` of MaskedShare vectors actually summed. -/
def smpcNumS (n : Nat) (vals : List (List Int)) : Nat :=
  (vals.filter (fun v => v.length = n)).length

/-- Per-coordinate reconstruction: widen `sum_s[i] + sum_t[i]` to `i128`,
divide by `num_s` as floating point, divide by the fixed-point scale. -/
def smpcAvg (num_s : Nat) (sum_s sum_t : List Int) : List Rat :=
  List.zipWith
    (fun a b => ((wrap128 (a + b) : Rat) / (num_s : Rat)) / (SMPC_SCALE : Rat))
    sum_s sum_t

/-- SMPC aggregation, `fn run_smpc_aggregation` (fully synchronous). -/
def run_smpc_aggregation (s : State) : State :=
  let cycle := s.current_cycle
  let s_map := cycleS s
  let t_map := cycleT s
  if s_map.isEmpty || t_map.isEmpty then s
  else
    match smpcVecLen (s_map.map Prod.snd) (t_map.map Prod.snd) with
    | none => s
    | some vec_len =>
      let sum_s := smpcSum vec_len (s_map.map Prod.snd)
      let sum_t := smpcSum vec_len (t_map.map Prod.snd)
      let num_s := smpcNumS vec_len (s_map.map Prod.snd)
      if num_s = 0 then s
      else
        { s with
          global_model := smpcAvg num_s sum_s sum_t
          smpc_s_shares := removeKey cycle s.smpc_s_shares
          smpc_t_sums := removeKey cycle s.smpc_t_sums }

/-- Sequential driver for registrations: registers each identity in turn
from the given state, collecting the returned ids; a trap aborts the
remainder.  Used to state the dense-assignment property of
`register_client`. -/
def register_sequence : List Principal → State → Except CallError (List ClientId × State)
  | [], s => .ok ([], s)
  | p :: ps, s =>
    match register_client p s with
    | .error e => .error e
    | .ok (id, s₂) =>
      match register_sequence ps s₂ with
      | .error e => .error e
      | .ok (ids, s₃) => .ok (id :: ids, s₃)

/-- Overwrite of the aggregation-mode field alone, used to state that the
flag is informational. -/
def setMode (m : AggregationMode) (s : State) : State :=
  { s with aggregation_mode := m }

/-- Registry invariant: the next id to assign equals the client-list
length, so assigned ids are exactly the positions 0..len-1. -/
def RegistryInv (s : State) : Prop := s.next_client_id = s.clients.length

/-- Concrete environment for witnesses: key derivation always succeeds,
decryption strips the nonce and returns the ciphertext, and the decoder
recognises three one-byte plaintexts as float vectors. -/
def wEnv : Env :=
  { deriveKey := fun _ => some []
    decrypt := fun _ _ ct => some ct
    parse := fun b =>
      if b = [1] then some [1, 2]
      else if b = [2] then some [3, 4]
      else if b = [3] then some [10, 20, 30]
      else none }

/-- Twelve-byte zero nonce used by witness payloads. -/
def wNonce : Bytes := List.replicate 12 0

/-- Witness state for plain aggregation: two registered clients, each
with a well-formed payload for the current cycle. -/
def wPlainTwo : State :=
  { State.default with
    clients := [100, 101]
    next_client_id := 2
    model_updates := [(0, [(0, wNonce ++ [1]), (1, wNonce ++ [2])])] }

/-- Witness state for SMPC aggregation: one masked share and one mask
sum for the current cycle. -/
def wSmpc : State :=
  { State.default with
    smpc_s_shares := [(0, [(0, [500000, -200000])])]
    smpc_t_sums := [(0, [(1, [300000, 400000])])] }

/-- Counterexample state: three clients; the iteration order of the
cycle update map presents the length-3 payload first. -/
def wLen3First : State :=
  { State.default with
    clients := [100, 101, 102]
    next_client_id := 3
    model_updates := [(0, [(2, wNonce ++ [3]), (0, wNonce ++ [1]), (1, wNonce ++ [2])])] }

/-- Witness state for the amended length rule: a length-2 payload is
iterated first, the length-3 payload second. -/
def wLen2First : State :=
  { State.default with
    clients := [100, 101, 102]
    next_client_id := 3
    model_updates := [(0, [(0, wNonce ++ [1]), (2, wNonce ++ [3]), (1, wNonce ++ [2])])] }

/-- Witness state for the fatal deserialization path: a payload whose
plaintext the decoder rejects. -/
def wDeserFail : State :=
  { State.default with
    clients := [100, 101]
    next_client_id := 2
    model_updates := [(0, [(0, wNonce ++ [9])])] }

/-- Witness state for a pass with zero successes: one registered client
whose payload is shorter than the 12-byte nonce. -/
def wShortOnly : State :=
  { State.default with
    clients := [100]
    next_client_id := 1
    model_updates := [(0, [(0, [7])])] }

/-- Witness state for SMPC with no masked shares but one mask sum. -/
def wSmpcNoShares : State :=
  { State.default with
    smpc_t_sums := [(0, [(1, [300000, 400000])])] }

/-- C7: run_aggregation on a cycle with an empty update map, or on a pass
whose per-call success counter ends at zero, returns with no effect and no
error: the state (global model and per-cycle update map included) is
unchanged. -/
theorem C7_run_aggregation_noop (env : Env) (s : State) :
    (cycleUpdates s = [] → run_aggregation env s = .ok s) ∧
    (∀ m, processUpdates env s.clients (cycleUpdates s) [] 0 = .ok (m, 0) →
      run_aggregation env s = .ok s) := by
  constructor
  · intro h
    simp [run_aggregation, h]
  · intro m h
    unfold run_aggregation
    by_cases he : (cycleUpdates s).isEmpty
    · simp [he]
    · simp [he, h]

/-- Witness for C7 at concrete inputs: the empty initial state, and a
state whose only payload is shorter than the 12-byte nonce so the pass
ends with zero successes. -/
theorem C7_run_aggregation_noop_witness :
    run_aggregation wEnv State.default = .ok State.default ∧
    run_aggregation wEnv wShortOnly = .ok wShortOnly :=
  ⟨(C7_run_aggregation_noop wEnv State.default).1 rfl,
   (C7_run_aggregation_noop wEnv wShortOnly).2 [] rfl⟩

/-- C6: run_smpc_aggregation is a no-op whenever zero MaskedShare vectors
are summed: both when the MaskedShare map of the cycle is empty (even though
MaskSum vectors exist) and whenever the count num_s of vectors matching
the chosen length ends at zero. -/
theorem C6_run_smpc_aggregation_noop (s : State) :
    (cycleS s = [] → run_smpc_aggregation s = s) ∧
    (∀ n, smpcVecLen ((cycleS s).map Prod.snd) ((cycleT s).map Prod.snd) = some n →
      smpcNumS n ((cycleS s).map Prod.snd) = 0 →
      run_smpc_aggregation s = s) := by
  constructor
  · intro h
    simp [run_smpc_aggregation, h]
  · intro n h₁ h₂
    unfold run_smpc_aggregation
    by_cases he : (cycleS s).isEmpty || (cycleT s).isEmpty
    · simp [he]
    · simp [he, h₁, h₂]

/-- Witness for C6 at concrete inputs: the empty initial state, and a
state with no masked shares but one mask sum (so a vector length is
chosen yet num_s is zero). -/
theorem C6_run_smpc_aggregation_noop_witness :
    run_smpc_aggregation State.default = State.default ∧
    run_smpc_aggregation wSmpcNoShares = wSmpcNoShares :=
  ⟨(C6_run_smpc_aggregation_noop State.default).1 rfl,
   (C6_run_smpc_aggregation_noop wSmpcNoShares).2 2 rfl rfl⟩

/-- C2: with one MaskedShare vector [500000, -200000] and one MaskSum
vector [300000, 400000] stored for the current cycle,
run_smpc_aggregation sets the global model to [0.8, 0.2] (computed by
widening the per-coordinate sums to 128 bits, dividing by num_s = 1 and
by the fixed-point scale 1000000) and removes both per-cycle SMPC maps. -/
theorem C2_run_smpc_aggregation_example (s : State) (c d : ClientId)
    (hs : cycleS s = [(c, [500000, -200000])])
    (ht : cycleT s = [(d, [300000, 400000])]) :
    run_smpc_aggregation s =
      { s with
        global_model := [(4 : Rat) / 5, (1 : Rat) / 5]
        smpc_s_shares := removeKey s.current_cycle s.smpc_s_shares
        smpc_t_sums := removeKey s.current_cycle s.smpc_t_sums } := by
  unfold run_smpc_aggregation
  rw [hs, ht]
  simp [smpcVecLen, smpcSum, smpcNumS, smpcAvg, addVec64, wrap64, wrap128,
    SMPC_SCALE]
  norm_num

/-- Witness for C2 at the concrete state wSmpc. -/
theorem C2_run_smpc_aggregation_example_witness :
    run_smpc_aggregation wSmpc =
      { wSmpc with
        global_model := [(4 : Rat) / 5, (1 : Rat) / 5]
        smpc_s_shares := removeKey wSmpc.current_cycle wSmpc.smpc_s_shares
        smpc_t_sums := removeKey wSmpc.current_cycle wSmpc.smpc_t_sums } :=
  C2_run_smpc_aggregation_example wSmpc 0 1 rfl rfl

/-- C1: for a cycle whose update map holds exactly two entries that
decrypt (under the per-client keys derived via the gateway) and decode to
the float vectors [1.0, 2.0] and [3.0, 4.0], run_aggregation sets the
global model to the element-wise mean [2.0, 3.0] and removes that cycle
from the EncryptedUpdate map. -/
theorem C1_run_aggregation_mean (env : Env) (s : State)
    (c₁ c₂ : ClientId) (u₁ u₂ pt₁ pt₂ k₁ k₂ : Bytes) (p₁ p₂ : Principal)
    (v₁ v₂ : List Rat)
    (hmap : cycleUpdates s = [(c₁, u₁), (c₂, u₂)])
    (hp₁ : s.clients.get? c₁ = some p₁)
    (hp₂ : s.clients.get? c₂ = some p₂)
    (hk₁ : env.deriveKey p₁ = some k₁)
    (hk₂ : env.deriveKey p₂ = some k₂)
    (hl₁ : 12 ≤ u₁.length)
    (hl₂ : 12 ≤ u₂.length)
    (hd₁ : env.decrypt k₁ (u₁.take 12) (u₁.drop 12) = some pt₁)
    (hd₂ : env.decrypt k₂ (u₂.take 12) (u₂.drop 12) = some pt₂)
    (hv₁ : env.parse pt₁ = some v₁)
    (hv₂ : env.parse pt₂ = some v₂)
    (hvv : v₁ = [1, 2] ∧ v₂ = [3, 4] ∨ v₁ = [3, 4] ∧ v₂ = [1, 2]) :
    run_aggregation env s =
      .ok { s with
        global_model := [2, 3]
        model_updates := removeKey s.current_cycle s.model_updates } := by
  rw [List.get?_eq_getElem?] at hp₁ hp₂
  rcases hvv with ⟨h₁, h₂⟩ | ⟨h₁, h₂⟩ <;> subst h₁ <;> subst h₂ <;>
  · unfold run_aggregation
    rw [hmap]
    simp [processUpdates, hp₁, hk₁, hd₁, hv₁, hp₂, hk₂, hd₂, hv₂,
      Nat.not_lt.mpr hl₁, Nat.not_lt.mpr hl₂]
    norm_num

/-- Witness for C1 at the concrete environment wEnv and state wPlainTwo. -/
theorem C1_run_aggregation_mean_witness :
    run_aggregation wEnv wPlainTwo =
      .ok { wPlainTwo with
        global_model := [2, 3]
        model_updates := removeKey wPlainTwo.current_cycle wPlainTwo.model_updates } :=
  C1_run_aggregation_mean wEnv wPlainTwo 0 1 (wNonce ++ [1]) (wNonce ++ [2])
    [1] [2] [] [] 100 101 [1, 2] [3, 4]
    rfl rfl rfl rfl rfl (by decide) (by decide) rfl rfl rfl rfl
    (Or.inl ⟨rfl, rfl⟩)

/-- Counterexample to C5 as stated: in the run whose iteration order
presents the length-3 payload first, the length-3 vector fixes the
expected length, is summed alone, and becomes the global model — it is
not excluded, and the result is not the mean [2, 3] of the two length-2
vectors. -/
theorem C5_length_rule_counterexample :
    run_aggregation wEnv wLen3First =
      .ok { wLen3First with
        global_model := [10, 20, 30]
        model_updates := removeKey wLen3First.current_cycle wLen3First.model_updates } ∧
    ([10, 20, 30] : List Rat) ≠ [2, 3] := by
  constructor
  · simp [run_aggregation, cycleUpdates, wLen3First, wEnv, wNonce,
      State.default, processUpdates]
  · norm_num

/-- C5 amended: the first successfully decoded vector fixes the expected
vector length for the whole pass and every later decoded vector of a
different length is skipped; accordingly, in every run where one of the
two length-2 vectors is decoded first, the length-3
vector is excluded without affecting the mean of the other two. -/
theorem C5_length_rule_amended (env : Env) (s : State)
    (c₁ c₂ c₃ : ClientId) (u₁ u₂ u₃ pt₁ pt₂ pt₃ k₁ k₂ k₃ : Bytes)
    (p₁ p₂ p₃ : Principal) (a₁ a₂ b₁ b₂ w₁ w₂ w₃ : Rat)
    (hmap : cycleUpdates s = [(c₁, u₁), (c₂, u₂), (c₃, u₃)] ∨
            cycleUpdates s = [(c₁, u₁), (c₃, u₃), (c₂, u₂)])
    (hp₁ : s.clients.get? c₁ = some p₁)
    (hp₂ : s.clients.get? c₂ = some p₂)
    (hp₃ : s.clients.get? c₃ = some p₃)
    (hk₁ : env.deriveKey p₁ = some k₁)
    (hk₂ : env.deriveKey p₂ = some k₂)
    (hk₃ : env.deriveKey p₃ = some k₃)
    (hl₁ : 12 ≤ u₁.length)
    (hl₂ : 12 ≤ u₂.length)
    (hl₃ : 12 ≤ u₃.length)
    (hd₁ : env.decrypt k₁ (u₁.take 12) (u₁.drop 12) = some pt₁)
    (hd₂ : env.decrypt k₂ (u₂.take 12) (u₂.drop 12) = some pt₂)
    (hd₃ : env.decrypt k₃ (u₃.take 12) (u₃.drop 12) = some pt₃)
    (hv₁ : env.parse pt₁ = some [a₁, a₂])
    (hv₂ : env.parse pt₂ = some [b₁, b₂])
    (hv₃ : env.parse pt₃ = some [w₁, w₂, w₃]) :
    run_aggregation env s =
      .ok { s with
        global_model := [(a₁ + b₁) / 2, (a₂ + b₂) / 2]
        model_updates := removeKey s.current_cycle s.model_updates } := by
  rw [List.get?_eq_getElem?] at hp₁ hp₂ hp₃
  rcases hmap with hmap | hmap <;>
  · unfold run_aggregation
    rw [hmap]
    simp [processUpdates, hp₁, hk₁, hd₁, hv₁, hp₂, hk₂, hd₂, hv₂,
      hp₃, hk₃, hd₃, hv₃, Nat.not_lt.mpr hl₁, Nat.not_lt.mpr hl₂,
      Nat.not_lt.mpr hl₃]

/-- Witness for the amended C5 at the concrete state wLen2First, whose
iteration order presents a length-2 payload first and the length-3
payload second. -/
theorem C5_length_rule_amended_witness :
    run_aggregation wEnv wLen2First =
      .ok { wLen2First with
        global_model := [((1 : Rat) + 3) / 2, ((2 : Rat) + 4) / 2]
        model_updates := removeKey wLen2First.current_cycle wLen2First.model_updates } :=
  C5_length_rule_amended wEnv wLen2First 0 1 2
    (wNonce ++ [1]) (wNonce ++ [2]) (wNonce ++ [3]) [1] [2] [3] [] [] []
    100 101 102 1 2 3 4 10 20 30
    (Or.inr rfl) rfl rfl rfl rfl rfl rfl
    (by decide) (by decide) (by decide) rfl rfl rfl rfl rfl rfl

/-- Splitting lemma for the aggregation loop: processing a concatenated
entry list runs the first part and, unless it trapped, continues with the
second part from the accumulated sum and counter. -/
theorem processUpdates_append (env : Env) (clients : List Principal)
    (l₁ l₂ : List (ClientId × Bytes)) :
    ∀ acc cnt, processUpdates env clients (l₁ ++ l₂) acc cnt =
      match processUpdates env clients l₁ acc cnt with
      | .error e => .error e
      | .ok (a, c) => processUpdates env clients l₂ a c := by
  induction l₁ with
  | nil => intro acc cnt; rfl
  | cons e rest ih =>
    intro acc cnt
    obtain ⟨cid, eu⟩ := e
    rcases h₁ : clients[cid]? with _ | p
    · simp [processUpdates, h₁]
    · rcases h₂ : env.deriveKey p with _ | k
      · simp [processUpdates, h₁, h₂]
      · by_cases hl : eu.length < 12
        · simp [processUpdates, h₁, h₂, hl, ih]
        · rcases h₃ : env.decrypt k (eu.take 12) (eu.drop 12) with _ | pt
          · simp [processUpdates, h₁, h₂, hl, h₃, ih]
          · rcases h₄ : env.parse pt with _ | v
            · simp [processUpdates, h₁, h₂, hl, h₃, h₄]
            · by_cases h₅ :
                (if acc = [] then List.replicate v.length (0 : Rat)
                 else acc).length = v.length
              · simp [processUpdates, h₁, h₂, hl, h₃, h₄, h₅, ih]
              · simp [processUpdates, h₁, h₂, hl, h₃, h₄, h₅, ih]

/-- C4: during run_aggregation, a failure to decode successfully
decrypted plaintext as a float vector aborts the entire call (a trap,
so sums accumulated from earlier clients in the same invocation are
discarded and no state changes), whereas a ciphertext shorter than 12
bytes or an AEAD decryption failure only skips that one update and the
pass continues with the others. -/
theorem C4_error_policy (env : Env) (s : State) :
    (∀ pre post c u p k pt acc cnt,
      cycleUpdates s = pre ++ (c, u) :: post →
      processUpdates env s.clients pre [] 0 = .ok (acc, cnt) →
      s.clients.get? c = some p →
      env.deriveKey p = some k →
      12 ≤ u.length →
      env.decrypt k (u.take 12) (u.drop 12) = some pt →
      env.parse pt = none →
      run_aggregation env s = .error .deserializationFailed) ∧
    (∀ c u p k rest acc cnt,
      s.clients.get? c = some p →
      env.deriveKey p = some k →
      (u.length < 12 ∨ env.decrypt k (u.take 12) (u.drop 12) = none) →
      processUpdates env s.clients ((c, u) :: rest) acc cnt =
        processUpdates env s.clients rest acc cnt) := by
  constructor
  · intro pre post c u p k pt acc cnt hmap hpre hp hk hl hd hparse
    rw [List.get?_eq_getElem?] at hp
    have hrun : processUpdates env s.clients (cycleUpdates s) [] 0 =
        .error .deserializationFailed := by
      rw [hmap, processUpdates_append, hpre]
      simp [processUpdates, hp, hk, Nat.not_lt.mpr hl, hd, hparse]
    rw [hmap] at hrun
    simp [run_aggregation, hmap, hrun]
  · intro c u p k rest acc cnt hp hk hskip
    rw [List.get?_eq_getElem?] at hp
    rcases hskip with hshort | hdecfail
    · simp [processUpdates, hp, hk, hshort]
    · simp [processUpdates, hp, hk, hdecfail]

/-- Witness for C4 at the concrete environment wEnv: state wDeserFail
traps on its undecodable plaintext, while a too-short payload entry is
skipped and the pass continues. -/
theorem C4_error_policy_witness :
    run_aggregation wEnv wDeserFail = .error .deserializationFailed ∧
    processUpdates wEnv wDeserFail.clients [(1, [])] [] 0 =
      processUpdates wEnv wDeserFail.clients [] [] 0 :=
  ⟨(C4_error_policy wEnv wDeserFail).1 [] [] 0 (wNonce ++ [9]) 100 [] [9] [] 0
     rfl rfl rfl rfl (by decide) rfl rfl,
   (C4_error_policy wEnv wDeserFail).2 1 [] 101 [] [] [] 0 rfl rfl
     (Or.inl (by decide))⟩

/-- Dense-assignment lemma: registering a duplicate-free list of fresh
identities succeeds and hands out the consecutive ids starting at the
current registry size, provided the next-id counter equals that size. -/
theorem register_sequence_ok (ps : List Principal) :
    ∀ s : State, ps.Nodup → (∀ p ∈ ps, p ∉ s.clients) →
      s.next_client_id = s.clients.length →
      ∃ s₃, register_sequence ps s =
        .ok (List.range' s.clients.length ps.length, s₃) := by
  induction ps with
  | nil => exact fun s _ _ _ => ⟨s, rfl⟩
  | cons p ps ih =>
    intro s hnd hdis hinv
    have hpnot : p ∉ s.clients := hdis p (by simp)
    obtain ⟨hhead, htail⟩ := List.nodup_cons.mp hnd
    obtain ⟨s₃, h₃⟩ := ih
      { s with clients := s.clients ++ [p],
               next_client_id := s.next_client_id + 1 }
      htail
      (by
        intro q hq
        simp only [List.mem_append, List.mem_singleton, not_or]
        exact ⟨hdis q (by simp [hq]), fun hqp => hhead (hqp ▸ hq)⟩)
      (by simp [hinv])
    refine ⟨s₃, ?_⟩
    rw [hinv] at h₃
    simp only [List.length_append, List.length_singleton] at h₃
    simp [register_sequence, register_client, hpnot, hinv, h₃,
      List.length_cons, List.range'_succ]

/-- C8: registering an identity already present in the registry traps
with a duplicate-registration panic (so the registry is unchanged), and
for every duplicate-free sequence of identities registered from the
initial state, the n-th registration returns ClientId n-1: the returned
ids are exactly List.range of the sequence length. -/
theorem C8_register_dense (p : Principal) (s : State) (ps : List Principal) :
    (p ∈ s.clients → register_client p s = .error .duplicateRegistration) ∧
    (ps.Nodup → ∃ s₃, register_sequence ps State.default =
      .ok (List.range ps.length, s₃)) := by
  constructor
  · intro h
    simp [register_client, h]
  · intro hnd
    have h := register_sequence_ok ps State.default hnd
      (by intro q _; simp [State.default]) rfl
    simpa [State.default, List.range_eq_range'] using h

/-- Witness for C8: re-registering client 100 of wPlainTwo fails, and
registering the two fresh identities 5 and 7 from the initial state
returns ids 0 and 1. -/
theorem C8_register_dense_witness :
    register_client 100 wPlainTwo = .error .duplicateRegistration ∧
    ∃ s₃, register_sequence [5, 7] State.default = .ok (List.range 2, s₃) :=
  ⟨(C8_register_dense 100 wPlainTwo [5, 7]).1 (by decide),
   (C8_register_dense 100 wPlainTwo [5, 7]).2 (by decide)⟩

/-- C9: the AggregationMode flag is informational only.  From two states
differing only in the aggregation_mode field, every upload and
aggregation operation succeeds or fails identically and produces the
same outputs and the same state apart from the mode field itself; the
flag never gates which pipeline runs. -/
theorem C9_mode_informational (m : AggregationMode) (env : Env)
    (caller : Principal) (upd : Bytes) (share msum : List Int) (s : State) :
    register_client caller (setMode m s) =
      (register_client caller s).map (fun r => (r.1, setMode m r.2)) ∧
    upload_model_update caller upd (setMode m s) =
      (upload_model_update caller upd s).map (setMode m) ∧
    upload_masked_update_s caller share (setMode m s) =
      (upload_masked_update_s caller share s).map (setMode m) ∧
    upload_mask_sum_t caller msum (setMode m s) =
      (upload_mask_sum_t caller msum s).map (setMode m) ∧
    run_aggregation env (setMode m s) =
      (run_aggregation env s).map (setMode m) ∧
    run_smpc_aggregation (setMode m s) = setMode m (run_smpc_aggregation s) := by
  refine ⟨?_, ?_, ?_, ?_, ?_, ?_⟩
  · by_cases h : caller ∈ s.clients <;>
      simp [register_client, setMode, h, Except.map]
  · cases h : s.clients.findIdx? (fun p => p = caller) <;>
      simp [upload_model_update, setMode, h, Except.map]
  · cases h : s.clients.findIdx? (fun p => p = caller) <;>
      simp [upload_masked_update_s, setMode, h, Except.map]
  · cases h : s.clients.findIdx? (fun p => p = caller) <;>
      simp [upload_mask_sum_t, setMode, h, Except.map]
  · by_cases he : (cycleUpdates s).isEmpty
    · simp [run_aggregation, cycleUpdates, setMode, Except.map] at he ⊢
      simp [he]
    · cases hr : processUpdates env s.clients (cycleUpdates s) [] 0 with
      | error e =>
        simp [cycleUpdates] at hr
        simp [run_aggregation, cycleUpdates, setMode, Except.map] at he ⊢
        simp [he, hr]
      | ok r =>
        obtain ⟨a, c⟩ := r
        simp [cycleUpdates] at hr
        by_cases hcnt : 0 < c <;>
        · simp [run_aggregation, cycleUpdates, setMode, Except.map] at he ⊢
          simp [he, hr, hcnt]
  · by_cases he : (cycleS s).isEmpty || (cycleT s).isEmpty
    · simp [run_smpc_aggregation, cycleS, cycleT, setMode] at he ⊢
      simp [he]
    · cases hv : smpcVecLen ((cycleS s).map Prod.snd) ((cycleT s).map Prod.snd) with
      | none =>
        simp [cycleS, cycleT] at hv
        simp [run_smpc_aggregation, cycleS, cycleT, setMode] at he ⊢
        simp [he.1, he.2, hv]
      | some n =>
        simp [cycleS, cycleT] at hv
        by_cases hn : smpcNumS n ((cycleS s).map Prod.snd) = 0 <;>
        · simp [cycleS] at hn
          simp [run_smpc_aggregation, cycleS, cycleT, setMode] at he ⊢
          simp [he.1, he.2, hv, hn]

/-- C10: the invariant next_client_id = clients.length holds initially
and is preserved by every operation; under it, registration returns the
id equal to the registry size, that id resolves positionally to the
registered identity, previously assigned ids keep resolving to their
identities, and the assigned ids are exactly those below
next_client_id. -/
theorem C10_registry_invariant :
    RegistryInv State.default ∧
    (∀ p s id s₂, RegistryInv s → register_client p s = .ok (id, s₂) →
      RegistryInv s₂ ∧ id = s.clients.length ∧
      s₂.clients.get? id = some p ∧
      (∀ j, j < s.clients.length → s₂.clients.get? j = s.clients.get? j)) ∧
    (∀ caller upd s s₂, upload_model_update caller upd s = .ok s₂ →
      RegistryInv s → RegistryInv s₂) ∧
    (∀ caller share s s₂, upload_masked_update_s caller share s = .ok s₂ →
      RegistryInv s → RegistryInv s₂) ∧
    (∀ caller msum s s₂, upload_mask_sum_t caller msum s = .ok s₂ →
      RegistryInv s → RegistryInv s₂) ∧
    (∀ s, RegistryInv s → RegistryInv (start_new_cycle s).2) ∧
    (∀ mode s, RegistryInv s → RegistryInv (set_aggregation_mode mode s)) ∧
    (∀ env s s₂, run_aggregation env s = .ok s₂ → RegistryInv s → RegistryInv s₂) ∧
    (∀ s, RegistryInv s → RegistryInv (run_smpc_aggregation s)) ∧
    (∀ s, RegistryInv s → ∀ i, i < s.next_client_id ↔ (s.clients.get? i).isSome) := by
  refine ⟨rfl, ?_, ?_, ?_, ?_, ?_, ?_, ?_, ?_, ?_⟩
  · intro p s id s₂ hinv heq
    by_cases h : p ∈ s.clients
    · simp [register_client, h] at heq
    · simp only [register_client, h, if_neg, if_false, Except.ok.injEq,
        Prod.mk.injEq] at heq
      obtain ⟨hid, hs₂⟩ := heq
      subst hs₂
      have hnl : s.next_client_id = s.clients.length := hinv
      refine ⟨?_, ?_, ?_, ?_⟩
      · show s.next_client_id + 1 = (s.clients ++ [p]).length
        simp [hnl]
      · rw [← hid]
        exact hnl
      · subst hid
        rw [hnl, List.get?_eq_getElem?]
        exact List.getElem?_concat_length s.clients p
      · intro j hj
        rw [List.get?_eq_getElem?, List.get?_eq_getElem?]
        exact List.getElem?_append_left hj
  · intro caller upd s s₂ heq hinv
    cases h : s.clients.findIdx? (fun p => p = caller) <;>
      simp [upload_model_update, h] at heq
    subst heq
    exact hinv
  · intro caller share s s₂ heq hinv
    cases h : s.clients.findIdx? (fun p => p = caller) <;>
      simp [upload_masked_update_s, h] at heq
    subst heq
    exact hinv
  · intro caller msum s s₂ heq hinv
    cases h : s.clients.findIdx? (fun p => p = caller) <;>
      simp [upload_mask_sum_t, h] at heq
    subst heq
    exact hinv
  · intro s hinv
    exact hinv
  · intro mode s hinv
    exact hinv
  · intro env s s₂ heq hinv
    simp only [run_aggregation] at heq
    split at heq
    · cases heq
      exact hinv
    · split at heq
      · cases heq
      · split at heq <;> cases heq <;> exact hinv
  · intro s hinv
    simp only [run_smpc_aggregation]
    split
    · exact hinv
    · split
      · exact hinv
      · split
        · exact hinv
        · exact hinv
  · intro s hinv i
    rw [show s.next_client_id = s.clients.length from hinv, List.get?_eq_getElem?]
    constructor
    · intro h
      simp [List.getElem?_eq_getElem h]
    · intro h
      by_contra hc
      simp [List.getElem?_eq_none (Nat.le_of_not_lt hc)] at h

/-- Witness for C10: a registration from the initial state, the SMPC
aggregation on wSmpc, and the id-resolution equivalence on wPlainTwo,
each with its hypotheses discharged concretely. -/
theorem C10_registry_invariant_witness :
    (RegistryInv { State.default with clients := [5], next_client_id := 1 } ∧
     0 = State.default.clients.length ∧
     ({ State.default with clients := [5], next_client_id := 1 } : State).clients.get? 0 = some 5 ∧
     (∀ j, j < State.default.clients.length →
       ({ State.default with clients := [5], next_client_id := 1 } : State).clients.get? j =
         State.default.clients.get? j)) ∧
    RegistryInv (run_smpc_aggregation wSmpc) ∧
    (0 < wPlainTwo.next_client_id ↔ (wPlainTwo.clients.get? 0).isSome) :=
  ⟨C10_registry_invariant.2.1 5 State.default 0 _ rfl rfl,
   C10_registry_invariant.2.2.2.2.2.2.2.2.1 wSmpc rfl,
   C10_registry_invariant.2.2.2.2.2.2.2.2.2 wPlainTwo rfl 0⟩

/-- Wrapping i64 addition preserves the residue modulo 2^64. -/
theorem wrap64_emod (z : Int) : wrap64 z % 2 ^ 64 = z % 2 ^ 64 := by
  unfold wrap64
  omega

/-- The wrapped value always lies in the i64 range. -/
theorem wrap64_mem_range (z : Int) :
    -(2 ^ 63) ≤ wrap64 z ∧ wrap64 z < 2 ^ 63 := by
  unfold wrap64
  omega

/-- Coordinate access of a zipWith combination at an in-range index. -/
theorem getD_zipWith (f : Int → Int → Int) :
    ∀ (l₁ l₂ : List Int) (i : Nat), i < l₁.length → i < l₂.length →
      (List.zipWith f l₁ l₂).getD i 0 = f (l₁.getD i 0) (l₂.getD i 0) := by
  intro l₁
  induction l₁ with
  | nil =>
    intro l₂ i h₁ h₂
    simp at h₁
  | cons x xs ih =>
    intro l₂ i h₁ h₂
    cases l₂ with
    | nil => simp at h₂
    | cons y ys =>
      cases i with
      | zero => rfl
      | succ j =>
        simp only [List.zipWith_cons_cons, List.getD_cons_succ]
        exact ih ys j (by simpa using h₁) (by simpa using h₂)

/-- Folding the vector accumulation over same-length vectors acts
coordinate-wise as the wrapped scalar fold, and preserves the length. -/
theorem smpcFold_getD (n i : Nat) (hi : i < n) :
    ∀ (ws : List (List Int)) (acc : List Int), acc.length = n →
      (∀ w ∈ ws, w.length = n) →
      (ws.foldl addVec64 acc).getD i 0 =
        ws.foldl (fun p w => wrap64 (p + w.getD i 0)) (acc.getD i 0) ∧
      (ws.foldl addVec64 acc).length = n := by
  intro ws
  induction ws with
  | nil =>
    intro acc hacc _
    exact ⟨rfl, hacc⟩
  | cons w ws ih =>
    intro acc hacc hall
    have hw : w.length = n := hall w (by simp)
    have hlen : (addVec64 acc w).length = n := by
      simp [addVec64, hacc, hw]
    have hstep : (addVec64 acc w).getD i 0 =
        wrap64 (acc.getD i 0 + w.getD i 0) :=
      getD_zipWith _ acc w i (hacc ▸ hi) (hw ▸ hi)
    obtain ⟨h₁, h₂⟩ := ih (addVec64 acc w) hlen
      (fun x hx => hall x (by simp [hx]))
    refine ⟨?_, by simpa using h₂⟩
    simp only [List.foldl_cons]
    rw [h₁, hstep]

/-- The wrapped scalar fold is congruent to the exact integer sum modulo
2^64. -/
theorem wrapFold_emod (xs : List Int) :
    ∀ a : Int, (xs.foldl (fun p q => wrap64 (p + q)) a) % 2 ^ 64 =
      (a + xs.sum) % 2 ^ 64 := by
  induction xs with
  | nil => simp
  | cons x xs ih =>
    intro a
    simp only [List.foldl_cons, List.sum_cons]
    rw [ih]
    have h := wrap64_emod (a + x)
    omega

/-- The wrapped scalar fold stays in the i64 range when started there. -/
theorem wrapFold_mem_range (xs : List Int) :
    ∀ a : Int, -(2 ^ 63) ≤ a ∧ a < 2 ^ 63 →
      -(2 ^ 63) ≤ xs.foldl (fun p q => wrap64 (p + q)) a ∧
        xs.foldl (fun p q => wrap64 (p + q)) a < 2 ^ 63 := by
  induction xs with
  | nil => exact fun a h => h
  | cons x xs ih =>
    intro a _
    simp only [List.foldl_cons]
    exact ih _ (wrap64_mem_range _)

/-- The per-coordinate accumulated sum computed by the source loops
equals the exact integer sum of the matching-length vectors when the
latter lies in the i64 range, and the computed value is in range. -/
theorem smpcSum_getD_eq (vals : List (List Int)) (n i : Nat) (hi : i < n)
    (hb : -(2 ^ 63) ≤ ((vals.filter (fun v => v.length = n)).map
            (fun v => v.getD i 0)).sum ∧
          ((vals.filter (fun v => v.length = n)).map
            (fun v => v.getD i 0)).sum < 2 ^ 63) :
    (smpcSum n vals).getD i 0 =
      ((vals.filter (fun v => v.length = n)).map (fun v => v.getD i 0)).sum := by
  have hws : ∀ w ∈ vals.filter (fun v => v.length = n), w.length = n := by
    intro w hw
    have := List.of_mem_filter hw
    simpa using this
  have hrep : (List.replicate n (0 : Int)).length = n := by simp
  have hrep0 : (List.replicate n (0 : Int)).getD i 0 = 0 := by
    simp [List.getD, List.getElem?_replicate, hi]
  obtain ⟨hcoord, _⟩ := smpcFold_getD n i hi
    (vals.filter (fun v => v.length = n)) (List.replicate n 0) hrep hws
  rw [smpcSum, hcoord, hrep0]
  rw [← List.foldl_map (fun w : List Int => w.getD i 0)
    (fun p q => wrap64 (p + q))]
  set xs := (vals.filter (fun v => v.length = n)).map (fun v => v.getD i 0)
    with hxs
  have hmod := wrapFold_emod xs 0
  have hrange := wrapFold_mem_range xs 0 (by norm_num)
  omega

/-- C3: the SMPC intermediate arithmetic is lossless for inputs up to
the i64 magnitude bound: whenever each per-coordinate exact sum of the
matching-length MaskedShare vectors and of the MaskSum vectors lies in
the i64 range, the value the program divides by num_s — the 128-bit
widened total of the two accumulated sums — equals the exact integer
sum, with no overflow anywhere. -/
theorem C3_smpc_widening_lossless (svals tvals : List (List Int))
    (n i : Nat) (hi : i < n)
    (hbs : -(2 ^ 63) ≤ ((svals.filter (fun v => v.length = n)).map
             (fun v => v.getD i 0)).sum ∧
           ((svals.filter (fun v => v.length = n)).map
             (fun v => v.getD i 0)).sum < 2 ^ 63)
    (hbt : -(2 ^ 63) ≤ ((tvals.filter (fun v => v.length = n)).map
             (fun v => v.getD i 0)).sum ∧
           ((tvals.filter (fun v => v.length = n)).map
             (fun v => v.getD i 0)).sum < 2 ^ 63) :
    wrap128 ((smpcSum n svals).getD i 0 + (smpcSum n tvals).getD i 0) =
      ((svals.filter (fun v => v.length = n)).map (fun v => v.getD i 0)).sum +
      ((tvals.filter (fun v => v.length = n)).map (fun v => v.getD i 0)).sum := by
  rw [smpcSum_getD_eq svals n i hi hbs, smpcSum_getD_eq tvals n i hi hbt]
  unfold wrap128
  omega

/-- Witness for C3 at one coordinate summing to the very edge of the
i64 range: one share at i64 max and one mask sum of 1. -/
theorem C3_smpc_widening_lossless_witness :
    wrap128 ((smpcSum 1 [[2 ^ 63 - 1]]).getD 0 0 +
             (smpcSum 1 [[(1 : Int)]]).getD 0 0) =
      (([[(2 : Int) ^ 63 - 1]].filter (fun v => v.length = 1)).map
        (fun v => v.getD 0 0)).sum +
      (([[(1 : Int)]].filter (fun v => v.length = 1)).map
        (fun v => v.getD 0 0)).sum :=
  C3_smpc_widening_lossless [[2 ^ 63 - 1]] [[1]] 1 0 (by norm_num)
    (by norm_num [List.filter]) (by norm_num [List.filter])
